import Mathlib

/-!
A shallow embedding of the donburi `ecs` package (`src/ecs/ecs.go`).

External opaque values are represented by natural-number identifiers: a system
object (Go `interface{}`), an `*ebiten.Image`, a `*donburi.World`, a
`*query.Query`.  A Go interface type assertion such as `system.(Updater)`
becomes a capability flag recorded on the identifier record.  A Go `nil`
pointer becomes `Option.none`.  A panic is modelled as an error value returned
alongside the (unchanged) state.  Calls into external code (`u.Updater.Update`,
`d.Drawer.Draw`, `ecs.Time.Update`) are recorded as events in a trace, in the
order the Go code performs them.
-/

namespace DonburiEcs

/-- A value passed to `AddSystem` (Go `system interface{}`).  `IsUpdater` and
`IsDrawer` record whether its dynamic type implements the `Updater` resp.
`Drawer` interface, which is what the type assertions in `AddSystem` test. -/
structure SystemVal where
  id : Nat
  IsUpdater : Bool
  IsDrawer : Bool
deriving DecidableEq, Repr

/-- `SystemOpts` from `ecs.go`: `Image *ebiten.Image` (nil ↦ `none`) and
`Priority int`.  The Go zero value `SystemOpts{}` is `{ Image := none, Priority := 0 }`. -/
structure SystemOpts where
  Image : Option Nat := none
  Priority : Int := 0
deriving DecidableEq, Repr

/-- The `updater` registry entry of `ecs.go`: the registered `Updater`
interface value (kept as its identifier) and its priority. -/
structure updater where
  Updater : Nat
  Priority : Int
deriving DecidableEq, Repr

/-- The `drawer` registry entry of `ecs.go`: the registered `Drawer`
interface value (kept as its identifier), its priority, and its optional
private target image. -/
structure drawer where
  Drawer : Nat
  Priority : Int
  Image : Option Nat
deriving DecidableEq, Repr

/-- Modelled from the spec: the Clock (`Time`, defined in a source file of this
repository that is not under `src/`) is advanced exactly once per scheduler
tick.  Wall-clock durations are not representable in the embedding, so the
model records the number of advances performed. -/
structure Time where
  ticks : Nat
deriving DecidableEq, Repr

/-- Modelled from the spec: `NewTime` constructs a fresh clock. -/
def NewTime : Time := ⟨0⟩

/-- Modelled from the spec: `Time.Update` advances the clock once. -/
def Time.Update (t : Time) : Time := ⟨t.ticks + 1⟩

/-- Modelled from the spec: a script Binding held by the script-attachment
subsystem — the query, the behavior object (kept as its identifier), and the
options it was attached with. -/
structure Binding where
  Query : Nat
  Script : Nat
  Priority : Int
  Image : Option Nat
deriving DecidableEq, Repr

/-- Modelled from the spec: the `ScriptSystem` state (source file not under
`src/`) is its list of Bindings, in insertion order. -/
structure ScriptSystem where
  scripts : List Binding
deriving DecidableEq, Repr

/-- Modelled from the spec: `NewScriptSystem` starts with no Bindings. -/
def NewScriptSystem : ScriptSystem := ⟨[]⟩

/-- A behavior value passed to `AddScript` (Go `script interface{}`); per the
doc comment in `ecs.go` it must implement `EntryUpdater` or/and `EntryDrawer`,
recorded here as capability flags. -/
structure ScriptVal where
  id : Nat
  IsEntryUpdater : Bool
  IsEntryDrawer : Bool
deriving DecidableEq, Repr

/-- Modelled from the spec: `ScriptOpts` carries a priority (default 0) and an
optional target surface (default none). -/
structure ScriptOpts where
  Image : Option Nat := none
  Priority : Int := 0
deriving DecidableEq, Repr

/-- The message of the panic raised by `AddSystem` in `ecs.go`. -/
def configurationErrorMsg : String :=
  "ECS system should be either Updater or Drawer at least."

/-- Modelled from the spec: the ConfigurationError raised by `AddScript` when
the behavior exposes neither per-entity capability. -/
def scriptConfigurationErrorMsg : String :=
  "script must be EntryUpdater or EntryDrawer at least."

/-- Modelled from the spec: `ScriptSystem.AddScript` checks that the behavior
exposes at least one per-entity capability (ConfigurationError otherwise) and
appends a Binding to its internal list.  It receives no reference to the ECS. -/
def ScriptSystem.AddScript (ss : ScriptSystem) (q : Nat) (sc : ScriptVal)
    (opts : Option ScriptOpts) : ScriptSystem × Option String :=
  let opts := opts.getD {}
  if sc.IsEntryUpdater || sc.IsEntryDrawer then
    (⟨ss.scripts ++ [{ Query := q, Script := sc.id,
                       Priority := opts.Priority, Image := opts.Image }]⟩, none)
  else
    (ss, some scriptConfigurationErrorMsg)

/-- The `ECS` struct of `ecs.go`: the world handle, the clock, the script
subsystem, and (from the embedded `innerECS`) the two registries. -/
structure ECS where
  World : Nat
  Time : Time
  ScriptSystem : ScriptSystem
  updaters : List updater
  drawers : List drawer
deriving DecidableEq, Repr

/-- The comparator of `sort.SliceStable` in `sortUpdaterEntries`:
the Go strict `entries[i].Priority > entries[j].Priority`, turned into the
non-strict total preorder `r a b ↔ ¬ lt b a` that a stable sort realises. -/
def updaterOrder (a b : updater) : Prop := b.Priority ≤ a.Priority

instance : DecidableRel updaterOrder := fun a b => Int.decLe b.Priority a.Priority

instance : IsTrans updater updaterOrder :=
  ⟨fun _ _ _ h1 h2 => le_trans h2 h1⟩

instance : IsTotal updater updaterOrder :=
  ⟨fun a b => Int.le_total b.Priority a.Priority⟩

/-- The comparator of `sort.SliceStable` in `sortDrawerEntries`, as in
`updaterOrder`. -/
def drawerOrder (a b : drawer) : Prop := b.Priority ≤ a.Priority

instance : DecidableRel drawerOrder := fun a b => Int.decLe b.Priority a.Priority

instance : IsTrans drawer drawerOrder :=
  ⟨fun _ _ _ h1 h2 => le_trans h2 h1⟩

instance : IsTotal drawer drawerOrder :=
  ⟨fun a b => Int.le_total b.Priority a.Priority⟩

/-- `sortUpdaterEntries` from `ecs.go`: `sort.SliceStable` with
`entries[i].Priority > entries[j].Priority`.  A stable sort under a total
preorder has a unique result, so it is embedded as the stable insertion sort
under `updaterOrder`. -/
def sortUpdaterEntries (entries : List updater) : List updater :=
  List.insertionSort updaterOrder entries

/-- `sortDrawerEntries` from `ecs.go`, as `sortUpdaterEntries`. -/
def sortDrawerEntries (entries : List drawer) : List drawer :=
  List.insertionSort drawerOrder entries

/-- `addUpdater` from `ecs.go`: append the entry, then re-sort. -/
def ECS.addUpdater (ecs : ECS) (entry : updater) : ECS :=
  { ecs with updaters := sortUpdaterEntries (ecs.updaters ++ [entry]) }

/-- `addDrawer` from `ecs.go`: append the entry, then re-sort. -/
def ECS.addDrawer (ecs : ECS) (entry : drawer) : ECS :=
  { ecs with drawers := sortDrawerEntries (ecs.drawers ++ [entry]) }

/-- `AddSystem` from `ecs.go`.  A `nil` opts pointer defaults to the zero
`SystemOpts`; the system is added to the updater registry if it implements
`Updater`, to the drawer registry if it implements `Drawer`, and if neither,
the code panics (modelled as returning the panic message next to the state,
which at that point is unchanged). -/
def ECS.AddSystem (ecs : ECS) (system : SystemVal) (opts : Option SystemOpts) :
    ECS × Option String :=
  let opts := opts.getD {}
  let step1 : ECS × Bool :=
    if system.IsUpdater then
      (ecs.addUpdater { Updater := system.id, Priority := opts.Priority }, true)
    else
      (ecs, false)
  let step2 : ECS × Bool :=
    if system.IsDrawer then
      (step1.1.addDrawer { Drawer := system.id, Priority := opts.Priority,
                           Image := opts.Image }, true)
    else
      step1
  if step2.2 then (step2.1, none) else (step2.1, some configurationErrorMsg)

/-- `AddSystems` from `ecs.go`: `AddSystem` with nil opts on each system in
turn; the panic of a failing call aborts the remaining calls. -/
def ECS.AddSystems (ecs : ECS) : List SystemVal → ECS × Option String
  | [] => (ecs, none)
  | s :: rest =>
    match ecs.AddSystem s none with
    | (e, none) => e.AddSystems rest
    | (e, some err) => (e, some err)

/-- `AddScript` from `ecs.go`: delegates to `ecs.ScriptSystem.AddScript`. -/
def ECS.AddScript (ecs : ECS) (q : Nat) (sc : ScriptVal) (opts : Option ScriptOpts) :
    ECS × Option String :=
  let res := ecs.ScriptSystem.AddScript q sc opts
  ({ ecs with ScriptSystem := res.1 }, res.2)

/-- An observable call performed by `ECS.Update`: the `ecs.Time.Update()` call,
or the `u.Updater.Update(ecs)` call on the registered updater with the given
identifier. -/
inductive Event where
  | clockAdvance : Event
  | updateCall (id : Nat) : Event
deriving DecidableEq, Repr

/-- `Update` from `ecs.go`: advance the clock, then call `Update` on every
updater-registry entry in registry order.  Returns the new state and the trace
of calls in the order performed. -/
def ECS.Update (ecs : ECS) : ECS × List Event :=
  ({ ecs with Time := ecs.Time.Update },
    Event.clockAdvance :: ecs.updaters.map fun u => Event.updateCall u.Updater)

/-- `Draw` from `ecs.go`: for every drawer-registry entry in registry order,
call `Draw` with the own image of the entry when it is non-nil and with `screen`
otherwise.  Returns the trace of calls `(drawer identifier, image drawn to)`
in the order performed; the state is not modified. -/
def ECS.Draw (ecs : ECS) (screen : Nat) : List (Nat × Nat) :=
  ecs.drawers.map fun d =>
    match d.Image with
    | some img => (d.Drawer, img)
    | none => (d.Drawer, screen)

/-- Modelled from the spec: the `ScriptSystem` value implements both the
`Updater` and the `Drawer` interface (it is registered into both registries at
construction time).  Its object identifier is fixed as 0. -/
def ScriptSystemVal : SystemVal := ⟨0, true, true⟩

/-- `NewECS` from `ecs.go`: a fresh world handle, clock and empty registries,
then the script subsystem registered through `AddSystem` with `&SystemOpts{}`. -/
def NewECS (w : Nat) : ECS :=
  let ecs : ECS :=
    { World := w, Time := NewTime, ScriptSystem := NewScriptSystem,
      updaters := [], drawers := [] }
  (ecs.AddSystem ScriptSystemVal (some {})).1

/-- One registration call: the system value and the (possibly nil) opts
pointer passed to `AddSystem`. -/
abbrev RegCall := SystemVal × Option SystemOpts

/-- A sequence of `AddSystem` calls, each applied to the state left by the
previous one (a failing call leaves the state unchanged). -/
def applyRegs (ecs : ECS) : List RegCall → ECS
  | [] => ecs
  | rc :: rest => applyRegs (ecs.AddSystem rc.1 rc.2).1 rest

/-- The updater-registry entries a sequence of `AddSystem` calls contributes,
in registration order. -/
def updaterEntriesOf (regs : List RegCall) : List updater :=
  regs.filterMap fun rc =>
    if rc.1.IsUpdater then
      some { Updater := rc.1.id, Priority := (rc.2.getD {}).Priority }
    else
      none

/-- The drawer-registry entries a sequence of `AddSystem` calls contributes,
in registration order. -/
def drawerEntriesOf (regs : List RegCall) : List drawer :=
  regs.filterMap fun rc =>
    if rc.1.IsDrawer then
      some { Drawer := rc.1.id, Priority := (rc.2.getD {}).Priority,
             Image := (rc.2.getD {}).Image }
    else
      none

/-- `n` consecutive `Update` ticks, keeping only the state. -/
def tickN : ECS → Nat → ECS
  | e, 0 => e
  | e, n + 1 => tickN (e.Update).1 n

/-! Generic facts about the stable insertion sort, specialised later to the two
registries. -/

/-- Inserting `a` commutes with filtering by a predicate `q` that relates any
two `q`-elements by `r`: the `q`-elements keep their order, with `a` put in
front when it satisfies `q` (it is placed before every element it relates to). -/
lemma filter_orderedInsert {α : Type} (r : α → α → Prop) [DecidableRel r] (q : α → Bool)
    (hq : ∀ a b, q a = true → q b = true → r a b) (a : α) (xs : List α) :
    (List.orderedInsert r a xs).filter q =
      if q a then a :: xs.filter q else xs.filter q := by
  induction xs with
  | nil =>
    by_cases hqa : q a = true <;> simp [List.orderedInsert, hqa]
  | cons b xs ih =>
    by_cases hab : r a b
    · simp only [List.orderedInsert, if_pos hab]
      by_cases hqa : q a = true <;> simp [List.filter_cons, hqa]
    · simp only [List.orderedInsert, if_neg hab]
      by_cases hqa : q a = true <;> by_cases hqb : q b = true
      · exact absurd (hq a b hqa hqb) hab
      · simp [List.filter_cons, hqa, hqb, ih]
      · simp [List.filter_cons, hqa, hqb, ih]
      · simp [List.filter_cons, hqa, hqb, ih]

/-- Stability of the insertion sort, in filter form: sorting does not change
the subsequence of elements satisfying `q`, for any `q` whose elements are
pairwise related by `r`. -/
lemma filter_insertionSort {α : Type} (r : α → α → Prop) [DecidableRel r] (q : α → Bool)
    (hq : ∀ a b, q a = true → q b = true → r a b) (l : List α) :
    (List.insertionSort r l).filter q = l.filter q := by
  induction l with
  | nil => rfl
  | cons a l ih =>
    simp only [List.insertionSort]
    rw [filter_orderedInsert r q hq a (List.insertionSort r l)]
    by_cases hqa : q a = true <;> simp [List.filter_cons, hqa, ih]

/-- `orderedInsert` puts `a` first when `a` relates to every element. -/
lemma orderedInsert_of_forall {α : Type} (r : α → α → Prop) [DecidableRel r]
    {a : α} {xs : List α} (h : ∀ b ∈ xs, r a b) :
    List.orderedInsert r a xs = a :: xs := by
  cases xs with
  | nil => rfl
  | cons b t => exact List.orderedInsert_of_le r t (h b (List.mem_cons_self b t))

/-- Stable-sorting a sorted list with one element appended inserts that element
after every prior element related to it and before all the others, leaving the
prior elements in place. -/
lemma insertionSort_append_of_sorted {α : Type} (r : α → α → Prop) [DecidableRel r]
    [IsTrans α r] (e : α) :
    ∀ l : List α, l.Sorted r →
      List.insertionSort r (l ++ [e]) =
        (l.takeWhile fun b => decide (r b e)) ++ e :: (l.dropWhile fun b => decide (r b e))
  | [], _ => by simp [List.insertionSort]
  | a :: l, hl => by
    have hal : ∀ b ∈ l, r a b := List.rel_of_sorted_cons hl
    have ih := insertionSort_append_of_sorted r e l hl.of_cons
    by_cases hae : r a e
    · rw [List.cons_append, List.insertionSort, ih]
      have hmem : ∀ b ∈ ((l.takeWhile fun b => decide (r b e)) ++
          e :: (l.dropWhile fun b => decide (r b e))), r a b := by
        intro b hb
        rcases List.mem_append.1 hb with h1 | h2
        · exact hal b ((List.takeWhile_sublist _).subset h1)
        · rcases List.mem_cons.1 h2 with rfl | h3
          · exact hae
          · exact hal b ((List.dropWhile_sublist _).subset h3)
      rw [orderedInsert_of_forall r hmem,
        List.takeWhile_cons_of_pos (by simpa using hae),
        List.dropWhile_cons_of_pos (by simpa using hae)]
      simp
    · have hbe : ∀ b ∈ l, ¬ r b e := fun b hb hrb =>
        hae (IsTrans.trans a b e (hal b hb) hrb)
      have htw : (l.takeWhile fun b => decide (r b e)) = [] := by
        cases l with
        | nil => rfl
        | cons c t =>
          exact List.takeWhile_cons_of_neg (by simpa using hbe c (List.mem_cons_self c t))
      have hdw : (l.dropWhile fun b => decide (r b e)) = l := by
        cases l with
        | nil => rfl
        | cons c t =>
          exact List.dropWhile_cons_of_neg (by simpa using hbe c (List.mem_cons_self c t))
      rw [List.cons_append, List.insertionSort, ih, htw, hdw,
        List.takeWhile_cons_of_neg (by simpa using hae),
        List.dropWhile_cons_of_neg (by simpa using hae)]
      simp only [List.nil_append]
      rw [List.orderedInsert, if_neg hae, orderedInsert_of_forall r hal]

/-! What `AddSystem` does to each component of the state. -/

lemma AddSystem_updaters (ecs : ECS) (s : SystemVal) (opts : Option SystemOpts) :
    (ecs.AddSystem s opts).1.updaters =
      if s.IsUpdater then
        sortUpdaterEntries (ecs.updaters ++
          [{ Updater := s.id, Priority := (opts.getD {}).Priority }])
      else ecs.updaters := by
  cases hu : s.IsUpdater <;> cases hd : s.IsDrawer <;>
    simp [ECS.AddSystem, ECS.addUpdater, ECS.addDrawer, hu, hd]

lemma AddSystem_drawers (ecs : ECS) (s : SystemVal) (opts : Option SystemOpts) :
    (ecs.AddSystem s opts).1.drawers =
      if s.IsDrawer then
        sortDrawerEntries (ecs.drawers ++
          [{ Drawer := s.id, Priority := (opts.getD {}).Priority,
             Image := (opts.getD {}).Image }])
      else ecs.drawers := by
  cases hu : s.IsUpdater <;> cases hd : s.IsDrawer <;>
    simp [ECS.AddSystem, ECS.addUpdater, ECS.addDrawer, hu, hd]

lemma AddSystem_err (ecs : ECS) (s : SystemVal) (opts : Option SystemOpts) :
    (ecs.AddSystem s opts).2 =
      if s.IsUpdater || s.IsDrawer then none else some configurationErrorMsg := by
  cases hu : s.IsUpdater <;> cases hd : s.IsDrawer <;>
    simp [ECS.AddSystem, ECS.addUpdater, ECS.addDrawer, hu, hd]

lemma AddSystem_Time (ecs : ECS) (s : SystemVal) (opts : Option SystemOpts) :
    (ecs.AddSystem s opts).1.Time = ecs.Time := by
  cases hu : s.IsUpdater <;> cases hd : s.IsDrawer <;>
    simp [ECS.AddSystem, ECS.addUpdater, ECS.addDrawer, hu, hd]

lemma AddSystem_World (ecs : ECS) (s : SystemVal) (opts : Option SystemOpts) :
    (ecs.AddSystem s opts).1.World = ecs.World := by
  cases hu : s.IsUpdater <;> cases hd : s.IsDrawer <;>
    simp [ECS.AddSystem, ECS.addUpdater, ECS.addDrawer, hu, hd]

lemma AddSystem_ScriptSystem (ecs : ECS) (s : SystemVal) (opts : Option SystemOpts) :
    (ecs.AddSystem s opts).1.ScriptSystem = ecs.ScriptSystem := by
  cases hu : s.IsUpdater <;> cases hd : s.IsDrawer <;>
    simp [ECS.AddSystem, ECS.addUpdater, ECS.addDrawer, hu, hd]

/-! The registries across a whole sequence of registrations. -/

lemma applyRegs_updaters_sorted (regs : List RegCall) (ecs : ECS)
    (h : ecs.updaters.Sorted updaterOrder) :
    (applyRegs ecs regs).updaters.Sorted updaterOrder := by
  induction regs generalizing ecs with
  | nil => exact h
  | cons rc rest ih =>
    apply ih
    rw [AddSystem_updaters]
    split
    · exact List.sorted_insertionSort updaterOrder _
    · exact h

lemma applyRegs_drawers_sorted (regs : List RegCall) (ecs : ECS)
    (h : ecs.drawers.Sorted drawerOrder) :
    (applyRegs ecs regs).drawers.Sorted drawerOrder := by
  induction regs generalizing ecs with
  | nil => exact h
  | cons rc rest ih =>
    apply ih
    rw [AddSystem_drawers]
    split
    · exact List.sorted_insertionSort drawerOrder _
    · exact h

lemma updaterOrder_of_filter (p : Int) : ∀ a b : updater,
    decide (a.Priority = p) = true → decide (b.Priority = p) = true → updaterOrder a b := by
  intro a b ha hb
  simp only [decide_eq_true_eq] at ha hb
  simp [updaterOrder, ha, hb]

lemma drawerOrder_of_filter (p : Int) : ∀ a b : drawer,
    decide (a.Priority = p) = true → decide (b.Priority = p) = true → drawerOrder a b := by
  intro a b ha hb
  simp only [decide_eq_true_eq] at ha hb
  simp [drawerOrder, ha, hb]

lemma applyRegs_updaters_filter (p : Int) (regs : List RegCall) (ecs : ECS) :
    (applyRegs ecs regs).updaters.filter (fun u => decide (u.Priority = p)) =
      (ecs.updaters ++ updaterEntriesOf regs).filter (fun u => decide (u.Priority = p)) := by
  induction regs generalizing ecs with
  | nil => simp [applyRegs, updaterEntriesOf]
  | cons rc rest ih =>
    rw [applyRegs, ih, AddSystem_updaters]
    by_cases hu : rc.1.IsUpdater
    · rw [if_pos hu]
      simp only [sortUpdaterEntries, List.filter_append,
        filter_insertionSort updaterOrder (fun u => decide (u.Priority = p))
          (updaterOrder_of_filter p),
        updaterEntriesOf, List.filterMap_cons, hu, if_pos]
      by_cases hp : (rc.2.getD {}).Priority = p <;> simp [List.filter_cons, hp]
    · rw [if_neg hu]
      simp [updaterEntriesOf, List.filterMap_cons, hu]

lemma applyRegs_drawers_filter (p : Int) (regs : List RegCall) (ecs : ECS) :
    (applyRegs ecs regs).drawers.filter (fun d => decide (d.Priority = p)) =
      (ecs.drawers ++ drawerEntriesOf regs).filter (fun d => decide (d.Priority = p)) := by
  induction regs generalizing ecs with
  | nil => simp [applyRegs, drawerEntriesOf]
  | cons rc rest ih =>
    rw [applyRegs, ih, AddSystem_drawers]
    by_cases hd : rc.1.IsDrawer
    · rw [if_pos hd]
      simp only [sortDrawerEntries, List.filter_append,
        filter_insertionSort drawerOrder (fun d => decide (d.Priority = p))
          (drawerOrder_of_filter p),
        drawerEntriesOf, List.filterMap_cons, hd, if_pos]
      by_cases hp : (rc.2.getD {}).Priority = p <;> simp [List.filter_cons, hp]
    · rw [if_neg hd]
      simp [drawerEntriesOf, List.filterMap_cons, hd]

lemma applyRegs_updaters_perm (regs : List RegCall) (ecs : ECS) :
    (applyRegs ecs regs).updaters.Perm (ecs.updaters ++ updaterEntriesOf regs) := by
  induction regs generalizing ecs with
  | nil => simp [applyRegs, updaterEntriesOf]
  | cons rc rest ih =>
    rw [applyRegs]
    refine (ih _).trans ?_
    rw [AddSystem_updaters]
    by_cases hu : rc.1.IsUpdater
    · have hcons : updaterEntriesOf (rc :: rest) =
          { Updater := rc.1.id, Priority := (rc.2.getD {}).Priority } :: updaterEntriesOf rest := by
        simp [updaterEntriesOf, List.filterMap_cons, hu]
      rw [if_pos hu, hcons]
      have hassoc : ecs.updaters ++
          ({ Updater := rc.1.id, Priority := (rc.2.getD {}).Priority } :: updaterEntriesOf rest) =
          (ecs.updaters ++ [{ Updater := rc.1.id, Priority := (rc.2.getD {}).Priority }]) ++
            updaterEntriesOf rest := by
        simp
      rw [hassoc]
      exact (List.perm_insertionSort updaterOrder _).append_right _
    · have hcons : updaterEntriesOf (rc :: rest) = updaterEntriesOf rest := by
        simp [updaterEntriesOf, List.filterMap_cons, hu]
      rw [if_neg hu, hcons]

lemma applyRegs_drawers_perm (regs : List RegCall) (ecs : ECS) :
    (applyRegs ecs regs).drawers.Perm (ecs.drawers ++ drawerEntriesOf regs) := by
  induction regs generalizing ecs with
  | nil => simp [applyRegs, drawerEntriesOf]
  | cons rc rest ih =>
    rw [applyRegs]
    refine (ih _).trans ?_
    rw [AddSystem_drawers]
    by_cases hd : rc.1.IsDrawer
    · have hcons : drawerEntriesOf (rc :: rest) =
          { Drawer := rc.1.id, Priority := (rc.2.getD {}).Priority, Image := (rc.2.getD {}).Image } :: drawerEntriesOf rest := by
        simp [drawerEntriesOf, List.filterMap_cons, hd]
      rw [if_pos hd, hcons]
      have hassoc : ecs.drawers ++
          ({ Drawer := rc.1.id, Priority := (rc.2.getD {}).Priority, Image := (rc.2.getD {}).Image } :: drawerEntriesOf rest) =
          (ecs.drawers ++ [{ Drawer := rc.1.id, Priority := (rc.2.getD {}).Priority, Image := (rc.2.getD {}).Image }]) ++
            drawerEntriesOf rest := by
        simp
      rw [hassoc]
      exact (List.perm_insertionSort drawerOrder _).append_right _
    · have hcons : drawerEntriesOf (rc :: rest) = drawerEntriesOf rest := by
        simp [drawerEntriesOf, List.filterMap_cons, hd]
      rw [if_neg hd, hcons]

lemma applyRegs_updaters_congr (regs : List RegCall) :
    ∀ e1 e2 : ECS, e1.updaters = e2.updaters →
      (applyRegs e1 regs).updaters = (applyRegs e2 regs).updaters := by
  induction regs with
  | nil => intro e1 e2 h; exact h
  | cons rc rest ih =>
    intro e1 e2 h
    rw [applyRegs, applyRegs]
    exact ih _ _ (by rw [AddSystem_updaters, AddSystem_updaters, h])

lemma applyRegs_drawers_congr (regs : List RegCall) :
    ∀ e1 e2 : ECS, e1.drawers = e2.drawers →
      (applyRegs e1 regs).drawers = (applyRegs e2 regs).drawers := by
  induction regs with
  | nil => intro e1 e2 h; exact h
  | cons rc rest ih =>
    intro e1 e2 h
    rw [applyRegs, applyRegs]
    exact ih _ _ (by rw [AddSystem_drawers, AddSystem_drawers, h])

lemma tickN_updaters (n : Nat) (e : ECS) : (tickN e n).updaters = e.updaters := by
  induction n generalizing e with
  | zero => rfl
  | succ n ih => exact ih (e.Update).1

lemma tickN_drawers (n : Nat) (e : ECS) : (tickN e n).drawers = e.drawers := by
  induction n generalizing e with
  | zero => rfl
  | succ n ih => exact ih (e.Update).1

lemma NewECS_updaters (w : Nat) :
    (NewECS w).updaters = [{ Updater := 0, Priority := 0 }] := by rfl

lemma NewECS_drawers (w : Nat) :
    (NewECS w).drawers = [{ Drawer := 0, Priority := 0, Image := none }] := by rfl

lemma Update_trace_countP (e : ECS) (i : Nat) :
    (e.Update).2.countP (fun ev => decide (ev = Event.updateCall i)) =
      e.updaters.countP (fun u => decide (u.Updater = i)) := by
  show List.countP _ (Event.clockAdvance :: e.updaters.map fun u => Event.updateCall u.Updater) = _
  rw [List.countP_cons_of_neg _ _ (by simp), List.countP_map]
  apply List.countP_congr
  intro u _
  simp [Function.comp]

lemma Draw_trace_countP (e : ECS) (screen : Nat) (i : Nat) :
    (e.Draw screen).countP (fun ev => decide (ev.1 = i)) =
      e.drawers.countP (fun d => decide (d.Drawer = i)) := by
  show List.countP _ (e.drawers.map _) = _
  rw [List.countP_map]
  apply List.countP_congr
  intro d _
  cases h : d.Image <;> simp [Function.comp, h]

lemma countP_replicate {α : Type} (p : α → Bool) (a : α) (n : Nat) :
    (List.replicate n a).countP p = if p a then n else 0 := by
  induction n with
  | zero => simp
  | succ n ih =>
    rw [List.replicate_succ, List.countP_cons, ih]
    by_cases h : p a = true <;> simp [h]

lemma updaterEntriesOf_replicate (n : Nat) (s : SystemVal) (opts : Option SystemOpts)
    (h : s.IsUpdater = true) :
    updaterEntriesOf (List.replicate n (s, opts)) =
      List.replicate n { Updater := s.id, Priority := (opts.getD {}).Priority } := by
  induction n with
  | zero => rfl
  | succ n ih =>
    rw [List.replicate_succ, List.replicate_succ, ← ih]
    simp [updaterEntriesOf, List.filterMap_cons, h]

lemma drawerEntriesOf_replicate (n : Nat) (s : SystemVal) (opts : Option SystemOpts)
    (h : s.IsDrawer = true) :
    drawerEntriesOf (List.replicate n (s, opts)) =
      List.replicate n { Drawer := s.id, Priority := (opts.getD {}).Priority,
                         Image := (opts.getD {}).Image } := by
  induction n with
  | zero => rfl
  | succ n ih =>
    rw [List.replicate_succ, List.replicate_succ, ← ih]
    simp [drawerEntriesOf, List.filterMap_cons, h]

/-! The claims. -/

/-- C1: For every sequence of register (AddSystem) calls, a subsequent tick
(Update) invokes the update participants in non-increasing priority order, and
among participants of equal priority, in the order they were registered
(stable tie-breaking): the tick calls the updater registry in order, that
registry is sorted by priority descending, and for each priority its entries
are exactly the registrations of that priority in registration order. -/
theorem C1_tick_priority_order (w : Nat) (regs : List RegCall) :
    ((applyRegs (NewECS w) regs).Update).2 =
      Event.clockAdvance ::
        (applyRegs (NewECS w) regs).updaters.map (fun u => Event.updateCall u.Updater)
    ∧ (applyRegs (NewECS w) regs).updaters.Sorted updaterOrder
    ∧ ∀ p : Int,
        (applyRegs (NewECS w) regs).updaters.filter (fun u => decide (u.Priority = p)) =
          ((NewECS w).updaters ++ updaterEntriesOf regs).filter
            (fun u => decide (u.Priority = p)) := by
  refine ⟨rfl, ?_, ?_⟩
  · exact applyRegs_updaters_sorted regs _
      (by rw [NewECS_updaters]; exact List.sorted_singleton _)
  · intro p
    exact applyRegs_updaters_filter p regs _

/-- C2: AddSystem fails (the code panics) if and only if the system implements
neither the Updater nor the Drawer interface, and on that failure neither
registry — indeed no part of the state — has been mutated. -/
theorem C2_AddSystem_error_iff_atomic (ecs : ECS) (s : SystemVal) (opts : Option SystemOpts) :
    ((ecs.AddSystem s opts).2.isSome ↔ (s.IsUpdater = false ∧ s.IsDrawer = false))
    ∧ ((ecs.AddSystem s opts).2.isSome → (ecs.AddSystem s opts).1 = ecs) := by
  cases hu : s.IsUpdater <;> cases hd : s.IsDrawer <;>
    simp [ECS.AddSystem, ECS.addUpdater, ECS.addDrawer, hu, hd]

theorem C2_witness :
    ((ECS.AddSystem (NewECS 0) ⟨9, false, false⟩ none).2.isSome = true)
    ∧ (ECS.AddSystem (NewECS 0) ⟨9, false, false⟩ none).1 = NewECS 0 :=
  ⟨(C2_AddSystem_error_iff_atomic (NewECS 0) ⟨9, false, false⟩ none).1.mpr ⟨rfl, rfl⟩,
   (C2_AddSystem_error_iff_atomic (NewECS 0) ⟨9, false, false⟩ none).2
     ((C2_AddSystem_error_iff_atomic (NewECS 0) ⟨9, false, false⟩ none).1.mpr ⟨rfl, rfl⟩)⟩

/-- C3: Update advances the clock exactly once per call, and the advance
happens before any updater is invoked: the trace contains exactly one clock
advance, as its first element. -/
theorem C3_clock_once_before_updates (ecs : ECS) :
    ((ecs.Update).1.Time.ticks = ecs.Time.ticks + 1)
    ∧ ((ecs.Update).2.countP (fun ev => decide (ev = Event.clockAdvance)) = 1)
    ∧ ((ecs.Update).2.head? = some Event.clockAdvance) := by
  refine ⟨rfl, ?_, rfl⟩
  show List.countP _ (Event.clockAdvance :: ecs.updaters.map fun u => Event.updateCall u.Updater) = 1
  rw [List.countP_cons, List.countP_map]
  simp [Function.comp, List.countP_eq_zero]

/-- C4: Draw invokes each draw participant in current draw-registry order,
passing the own image of the participant when one was set at registration and the
call-time screen otherwise. -/
theorem C4_draw_order_and_targets (ecs : ECS) (screen : Nat) :
    ecs.Draw screen = ecs.drawers.map (fun d => (d.Drawer, d.Image.getD screen)) := by
  apply List.map_congr_left
  intro d _
  cases h : d.Image <;> simp [h]

/-- C5: Registering a system implementing both Updater and Drawer succeeds and
adds exactly one entry to each registry, both carrying the priority from the
supplied options (and the drawer entry the supplied image). -/
theorem C5_both_capabilities (ecs : ECS) (s : SystemVal) (opts : SystemOpts)
    (hu : s.IsUpdater = true) (hd : s.IsDrawer = true) :
    ((ecs.AddSystem s (some opts)).2 = none)
    ∧ (ecs.AddSystem s (some opts)).1.updaters.Perm
        (ecs.updaters ++ [{ Updater := s.id, Priority := opts.Priority }])
    ∧ (ecs.AddSystem s (some opts)).1.drawers.Perm
        (ecs.drawers ++ [{ Drawer := s.id, Priority := opts.Priority, Image := opts.Image }]) := by
  refine ⟨?_, ?_, ?_⟩
  · rw [AddSystem_err]
    simp [hu, hd]
  · rw [AddSystem_updaters, if_pos hu]
    exact List.perm_insertionSort updaterOrder _
  · rw [AddSystem_drawers, if_pos hd]
    exact List.perm_insertionSort drawerOrder _

theorem C5_witness :
    (((NewECS 0).AddSystem ⟨5, true, true⟩ (some ⟨some 7, 3⟩)).2 = none)
    ∧ ((NewECS 0).AddSystem ⟨5, true, true⟩ (some ⟨some 7, 3⟩)).1.updaters.Perm
        ((NewECS 0).updaters ++ [{ Updater := 5, Priority := 3 }])
    ∧ ((NewECS 0).AddSystem ⟨5, true, true⟩ (some ⟨some 7, 3⟩)).1.drawers.Perm
        ((NewECS 0).drawers ++ [{ Drawer := 5, Priority := 3, Image := some 7 }]) :=
  C5_both_capabilities (NewECS 0) ⟨5, true, true⟩ ⟨some 7, 3⟩ rfl rfl

/-- C6: NewECS initializes the clock and the script subsystem, its registries
hold exactly the script subsystem entry at priority 0 with no private image,
and after any further sequence of registrations the script subsystem entry is
still the first priority-0 entry of each registry (stable ordering puts it
before every later-registered participant of equal priority). -/
theorem C6_constructor_registers_script_first (w : Nat) :
    (NewECS w).Time = NewTime
    ∧ (NewECS w).ScriptSystem = NewScriptSystem
    ∧ (NewECS w).updaters = [{ Updater := ScriptSystemVal.id, Priority := 0 }]
    ∧ (NewECS w).drawers = [{ Drawer := ScriptSystemVal.id, Priority := 0, Image := none }]
    ∧ ∀ regs : List RegCall,
        ((applyRegs (NewECS w) regs).updaters.filter
            (fun u => decide (u.Priority = 0))).head? =
          some { Updater := ScriptSystemVal.id, Priority := 0 }
        ∧ ((applyRegs (NewECS w) regs).drawers.filter
            (fun d => decide (d.Priority = 0))).head? =
          some { Drawer := ScriptSystemVal.id, Priority := 0, Image := none } := by
  refine ⟨rfl, rfl, rfl, rfl, ?_⟩
  intro regs
  constructor
  · rw [applyRegs_updaters_filter 0 regs, NewECS_updaters]
    simp [ScriptSystemVal]
  · rw [applyRegs_drawers_filter 0 regs, NewECS_drawers]
    simp [ScriptSystemVal]

/-- C7: AddScript only delegates to the script subsystem: the resulting state
has the same updater registry, drawer registry, clock and world, its script
subsystem is exactly the delegated result, and the returned error is the
delegated error. -/
theorem C7_AddScript_delegates (ecs : ECS) (q : Nat) (sc : ScriptVal)
    (opts : Option ScriptOpts) :
    (ecs.AddScript q sc opts).1.updaters = ecs.updaters
    ∧ (ecs.AddScript q sc opts).1.drawers = ecs.drawers
    ∧ (ecs.AddScript q sc opts).1.Time = ecs.Time
    ∧ (ecs.AddScript q sc opts).1.World = ecs.World
    ∧ (ecs.AddScript q sc opts).1.ScriptSystem = (ecs.ScriptSystem.AddScript q sc opts).1
    ∧ (ecs.AddScript q sc opts).2 = (ecs.ScriptSystem.AddScript q sc opts).2 :=
  ⟨rfl, rfl, rfl, rfl, rfl, rfl⟩

/-- C8: Dispatch order is deterministic: two schedulers (even over different
worlds) given the identical registration sequence produce identical update
traces and identical draw traces after any numbers of ticks, and ticks
themselves never change either registry. -/
theorem C8_deterministic_order (w1 w2 : Nat) (regs : List RegCall) (n m : Nat)
    (screen : Nat) :
    ((tickN (applyRegs (NewECS w1) regs) n).Update).2 =
      ((tickN (applyRegs (NewECS w2) regs) m).Update).2
    ∧ (tickN (applyRegs (NewECS w1) regs) n).Draw screen =
      (tickN (applyRegs (NewECS w2) regs) m).Draw screen
    ∧ (tickN (applyRegs (NewECS w1) regs) n).updaters = (applyRegs (NewECS w1) regs).updaters
    ∧ (tickN (applyRegs (NewECS w1) regs) n).drawers = (applyRegs (NewECS w1) regs).drawers := by
  have hu : (applyRegs (NewECS w1) regs).updaters = (applyRegs (NewECS w2) regs).updaters :=
    applyRegs_updaters_congr regs _ _ (by rw [NewECS_updaters, NewECS_updaters])
  have hd : (applyRegs (NewECS w1) regs).drawers = (applyRegs (NewECS w2) regs).drawers :=
    applyRegs_drawers_congr regs _ _ (by rw [NewECS_drawers, NewECS_drawers])
  have hu2 : (tickN (applyRegs (NewECS w1) regs) n).updaters =
      (tickN (applyRegs (NewECS w2) regs) m).updaters := by
    rw [tickN_updaters, tickN_updaters, hu]
  have hd2 : (tickN (applyRegs (NewECS w1) regs) n).drawers =
      (tickN (applyRegs (NewECS w2) regs) m).drawers := by
    rw [tickN_drawers, tickN_drawers, hd]
  refine ⟨?_, ?_, tickN_updaters n _, tickN_drawers n _⟩
  · unfold ECS.Update
    rw [hu2]
  · unfold ECS.Draw
    rw [hd2]

/-- C9: Inserting a new entry into a registry already sorted by priority
descending keeps the previous entries in their relative order and places the
new entry after every entry of greater-or-equal priority and before every
entry of strictly lower priority. -/
theorem C9_insert_into_sorted (ecs : ECS) (u : updater) (d : drawer)
    (hu : ecs.updaters.Sorted updaterOrder) (hd : ecs.drawers.Sorted drawerOrder) :
    (ecs.addUpdater u).updaters =
      (ecs.updaters.takeWhile fun b => decide (u.Priority ≤ b.Priority)) ++
        u :: (ecs.updaters.dropWhile fun b => decide (u.Priority ≤ b.Priority))
    ∧ (ecs.addDrawer d).drawers =
      (ecs.drawers.takeWhile fun b => decide (d.Priority ≤ b.Priority)) ++
        d :: (ecs.drawers.dropWhile fun b => decide (d.Priority ≤ b.Priority)) := by
  constructor
  · show List.insertionSort updaterOrder (ecs.updaters ++ [u]) = _
    exact insertionSort_append_of_sorted updaterOrder u ecs.updaters hu
  · show List.insertionSort drawerOrder (ecs.drawers ++ [d]) = _
    exact insertionSort_append_of_sorted drawerOrder d ecs.drawers hd

theorem C9_witness :
    (NewECS 0).updaters.Sorted updaterOrder
    ∧ (NewECS 0).drawers.Sorted drawerOrder
    ∧ (((NewECS 0).addUpdater { Updater := 3, Priority := 1 }).updaters =
        ((NewECS 0).updaters.takeWhile fun b => decide ((1 : Int) ≤ b.Priority)) ++
          { Updater := 3, Priority := 1 } ::
            ((NewECS 0).updaters.dropWhile fun b => decide ((1 : Int) ≤ b.Priority))
      ∧ ((NewECS 0).addDrawer { Drawer := 4, Priority := -2, Image := none }).drawers =
        ((NewECS 0).drawers.takeWhile fun b => decide ((-2 : Int) ≤ b.Priority)) ++
          { Drawer := 4, Priority := -2, Image := none } ::
            ((NewECS 0).drawers.dropWhile fun b => decide ((-2 : Int) ≤ b.Priority))) :=
  ⟨by decide, by decide,
   C9_insert_into_sorted (NewECS 0) { Updater := 3, Priority := 1 }
     { Drawer := 4, Priority := -2, Image := none } (by decide) (by decide)⟩

/-- C10: Registering the same system n times is not deduplicated: its update
operation appears n additional times in the tick trace (when it can update)
and its draw operation n additional times in the frame trace (when it can
draw), with one fresh registry entry per registration. -/
theorem C10_no_dedup (ecs : ECS) (s : SystemVal) (opts : Option SystemOpts)
    (n : Nat) (screen : Nat) :
    (s.IsUpdater = true →
      ((applyRegs ecs (List.replicate n (s, opts))).Update).2.countP
          (fun ev => decide (ev = Event.updateCall s.id)) =
        ((ecs.Update).2.countP (fun ev => decide (ev = Event.updateCall s.id))) + n
      ∧ (applyRegs ecs (List.replicate n (s, opts))).updaters.length =
        ecs.updaters.length + n)
    ∧ (s.IsDrawer = true →
      ((applyRegs ecs (List.replicate n (s, opts))).Draw screen).countP
          (fun ev => decide (ev.1 = s.id)) =
        ((ecs.Draw screen).countP (fun ev => decide (ev.1 = s.id))) + n
      ∧ (applyRegs ecs (List.replicate n (s, opts))).drawers.length =
        ecs.drawers.length + n) := by
  constructor
  · intro hu
    have hperm := applyRegs_updaters_perm (List.replicate n (s, opts)) ecs
    constructor
    · rw [Update_trace_countP, Update_trace_countP,
        List.Perm.countP_eq (fun u => decide (u.Updater = s.id)) hperm,
        List.countP_append, updaterEntriesOf_replicate n s opts hu, countP_replicate]
      simp
    · rw [hperm.length_eq, List.length_append, updaterEntriesOf_replicate n s opts hu,
        List.length_replicate]
  · intro hd
    have hperm := applyRegs_drawers_perm (List.replicate n (s, opts)) ecs
    constructor
    · rw [Draw_trace_countP, Draw_trace_countP,
        List.Perm.countP_eq (fun d => decide (d.Drawer = s.id)) hperm,
        List.countP_append, drawerEntriesOf_replicate n s opts hd, countP_replicate]
      simp
    · rw [hperm.length_eq, List.length_append, drawerEntriesOf_replicate n s opts hd,
        List.length_replicate]

theorem C10_witness :
    (((applyRegs (NewECS 0) (List.replicate 2 (⟨5, true, true⟩, none))).Update).2.countP
        (fun ev => decide (ev = Event.updateCall 5)) =
      (((NewECS 0).Update).2.countP (fun ev => decide (ev = Event.updateCall 5))) + 2
    ∧ (applyRegs (NewECS 0) (List.replicate 2 (⟨5, true, true⟩, none))).updaters.length =
      (NewECS 0).updaters.length + 2)
    ∧ (((applyRegs (NewECS 0) (List.replicate 2 (⟨5, true, true⟩, none))).Draw 9).countP
        (fun ev => decide (ev.1 = 5)) =
      (((NewECS 0).Draw 9).countP (fun ev => decide (ev.1 = 5))) + 2
    ∧ (applyRegs (NewECS 0) (List.replicate 2 (⟨5, true, true⟩, none))).drawers.length =
      (NewECS 0).drawers.length + 2) :=
  ⟨(C10_no_dedup (NewECS 0) ⟨5, true, true⟩ none 2 9).1 rfl,
   (C10_no_dedup (NewECS 0) ⟨5, true, true⟩ none 2 9).2 rfl⟩

end DonburiEcs
